import Mathlib

/-!
Verification of the World Happiness Explorer page
(`src/pages/1_World_Happiness_Explorer.py`) against its design document.

The page is a pandas/streamlit dashboard.  We embed the data model and the
derived-metric computations shallowly:

* a CSV cell is a `String`; `pandas.read_csv` turns NA tokens (notably the
  empty field) into missing values, so a loaded cell is an `Option String`;
* `pd.to_numeric(..., errors="coerce")` is a partial numeric parser,
  `Option String → Option ℚ`; machine floats are modelled by exact rationals;
* a dataframe is a `List Row`; boolean-mask filtering is `List.filter`;
* `numpy.sort` on the (distinct) tied modes is `List.insertionSort`
  (the sorted rearrangement of a list of distinct values is unique, so any
  correct sort embeds `np.sort` faithfully there);
* operations that can raise (`.iloc[0]` on an empty selection) return
  `Option` / `Except`, with `none` / `.error` marking the raising path.
-/

/-! ## Loader (`load_data`, source lines 21–74) -/

/-- Tokens that `pandas.read_csv` treats as missing values by default
(the subset relevant to this dataset; the empty field is the important one). -/
def naTokens : List String := ["", "NA", "N/A", "NaN", "nan", "NULL", "null"]

/-- One CSV cell as `read_csv` delivers it: missing for NA tokens,
the raw text otherwise. -/
def readCell (s : String) : Option String :=
  if s ∈ naTokens then none else some s

/-- Value of a digit string, most significant first (`foldl` base 10). -/
def digitsFold (cs : List Char) : Nat :=
  cs.foldl (fun n c => 10 * n + (c.toNat - 48)) 0

/-- Split a leading sign character off a numeral. -/
def splitSign : List Char → Bool × List Char
  | '-' :: rest => (true, rest)
  | '+' :: rest => (false, rest)
  | cs => (false, cs)

/-- Plain decimal-literal parser: the composite numeric coercion applied to a
text cell (`read_csv` inference followed by `pd.to_numeric(errors="coerce")`).
Unparsable text becomes `none` (pandas: NaN), never an error. -/
def parseDec (s : String) : Option ℚ :=
  let sb := splitSign s.data
  let intPart := sb.2.takeWhile Char.isDigit
  let rest := sb.2.dropWhile Char.isDigit
  let mag : Option ℚ :=
    match rest with
    | [] => if intPart.isEmpty then none else some (digitsFold intPart : ℚ)
    | '.' :: frac =>
        if frac.all Char.isDigit && !(intPart.isEmpty && frac.isEmpty) then
          some ((digitsFold intPart : ℚ) + (digitsFold frac : ℚ) / (10 : ℚ) ^ frac.length)
        else none
    | _ => none
  mag.map (fun q => if sb.1 then -q else q)

/-- Numeric coercion of a raw cell (`to_numeric` with `errors="coerce"`). -/
def toNumericCell (s : String) : Option ℚ :=
  (readCell s).bind parseDec

/-- One raw CSV row, restricted to the columns the page uses, already under
their canonical names (the loader's rename step — source lines 41–50 — maps
the header variants onto these; renaming and the `Unnamed: 0` drop are pure
schema normalization and do not touch row contents). -/
structure RawRow where
  country : String
  region : String
  year : String
  happinessScore : String
  economy : String
  family : String
  health : String
  freedom : String
  trust : String
  generosity : String
deriving DecidableEq

/-- One loaded record.  Every field is optional exactly as a pandas column is
nullable; `HappinessScore` is `score`.  `Year` is not in the loader's
`numeric_cols` list but `read_csv` itself infers numerals, hence the same
numeric parse. -/
structure Row where
  country : Option String
  region : Option String
  year : Option ℚ
  score : Option ℚ
  economy : Option ℚ
  family : Option ℚ
  health : Option ℚ
  freedom : Option ℚ
  trust : Option ℚ
  generosity : Option ℚ
deriving DecidableEq

/-- Cell-wise parse of one raw row (source lines 34 and 64–66). -/
def parseRow (r : RawRow) : Row :=
  { country := readCell r.country
    region := readCell r.region
    year := toNumericCell r.year
    score := toNumericCell r.happinessScore
    economy := toNumericCell r.economy
    family := toNumericCell r.family
    health := toNumericCell r.health
    freedom := toNumericCell r.freedom
    trust := toNumericCell r.trust
    generosity := toNumericCell r.generosity }

/-- The loader's row retention (source lines 69–70):
`df = df[df["HappinessScore"].notna()]` then `df = df[df["Country"].notna()]`. -/
def load_data (rows : List RawRow) : List Row :=
  ((rows.map parseRow).filter (fun p => p.score.isSome)).filter
    (fun p => p.country.isSome)

/-! ## Filter stage (source lines 88–90) -/

/-- `filtered = df[df["Year"] == selected_year]` and, when the selected region
is not the sentinel, `filtered = filtered[filtered["Region"] == selected_region]`.
A missing `Year`/`Region` compares unequal to any selected value, exactly as
NaN does under pandas `==`. -/
def filteredSubset (df : List Row) (year : ℚ) (region : String) : List Row :=
  let byYear := df.filter (fun p => p.year == some year)
  if region ≠ "All regions" then
    byYear.filter (fun p => p.region == some region)
  else byYear

/-! ## Theorems for the loader and the filter stage -/

theorem readCell_some_ne_empty {s c : String} (h : readCell s = some c) : c ≠ "" := by
  unfold readCell at h
  split at h
  · exact absurd h (by simp)
  · next hni =>
      intro hce
      apply hni
      have : s = c := by simpa using h
      subst this
      subst hce
      simp [naTokens]

/-- C5: every row retained by the loader has a non-empty Country and a parsed
(non-missing) HappinessScore; rows failing either condition are dropped. -/
theorem load_data_required_fields (rows : List RawRow) (p : Row)
    (hp : p ∈ load_data rows) :
    (∃ c, p.country = some c ∧ c ≠ "") ∧ (∃ q, p.score = some q) := by
  unfold load_data at hp
  have h2 := List.mem_filter.mp hp
  have h1 := List.mem_filter.mp h2.1
  obtain ⟨raw, _, hpr⟩ := List.mem_map.mp h1.1
  constructor
  · have hcs : p.country.isSome := by simpa using h2.2
    obtain ⟨c, hc⟩ := Option.isSome_iff_exists.mp hcs
    refine ⟨c, hc, ?_⟩
    have hcell : readCell raw.country = some c := by
      rw [← hc, ← hpr]
      rfl
    exact readCell_some_ne_empty hcell
  · have hss : p.score.isSome := by simpa using h1.2
    exact Option.isSome_iff_exists.mp hss

/-- A concrete raw row with all fields present. -/
def rawFinland : RawRow :=
  ⟨"Finland", "Western Europe", "2015", "7.5", "1.3", "1.2", "0.9", "0.6", "0.4", "0.3"⟩

theorem load_data_required_fields_witness :
    (∃ c, (parseRow rawFinland).country = some c ∧ c ≠ "") ∧
      (∃ q, (parseRow rawFinland).score = some q) :=
  load_data_required_fields [rawFinland] (parseRow rawFinland) (List.Mem.head _)

/-- C6: a row is in the filtered subset iff its Year is the selected year and,
when a region other than the sentinel is selected, its Region is the selected
one; rows of the table outside the subset violate at least one condition. -/
theorem filteredSubset_correct (df : List Row) (y : ℚ) (reg : String) :
    (∀ p ∈ filteredSubset df y reg,
        p.year = some y ∧ (reg ≠ "All regions" → p.region = some reg)) ∧
    (∀ p ∈ df, p ∉ filteredSubset df y reg →
        ¬(p.year = some y ∧ (reg ≠ "All regions" → p.region = some reg))) := by
  by_cases hreg : reg = "All regions"
  · constructor
    · intro p hp
      simp only [filteredSubset, hreg, ne_eq, not_true_eq_false, if_false,
        List.mem_filter, beq_iff_eq] at hp
      exact ⟨hp.2, fun h => absurd hreg h⟩
    · intro p hp hnp hcond
      apply hnp
      simp only [filteredSubset, hreg, ne_eq, not_true_eq_false, if_false,
        List.mem_filter, beq_iff_eq]
      exact ⟨hp, hcond.1⟩
  · constructor
    · intro p hp
      simp only [filteredSubset, hreg, ne_eq, not_false_eq_true, if_true,
        List.mem_filter, beq_iff_eq] at hp
      exact ⟨hp.1.2, fun _ => hp.2⟩
    · intro p hp hnp hcond
      apply hnp
      simp only [filteredSubset, hreg, ne_eq, not_false_eq_true, if_true,
        List.mem_filter, beq_iff_eq]
      exact ⟨⟨hp, hcond.1⟩, hcond.2 hreg⟩

/-- A concrete loaded row used by several witnesses. -/
def rowFinland : Row :=
  { country := some "Finland", region := some "Western Europe",
    year := some 2015, score := some (15 / 2), economy := some (13 / 10),
    family := some (6 / 5), health := some (9 / 10), freedom := some (3 / 5),
    trust := some (2 / 5), generosity := some (3 / 10) }

theorem filteredSubset_correct_witness :
    rowFinland.year = some 2015 ∧
      ("Western Europe" ≠ "All regions" → rowFinland.region = some "Western Europe") :=
  (filteredSubset_correct [rowFinland] 2015 "Western Europe").1 rowFinland (List.Mem.head _)

/-! ## Code-point lexicographic order on strings

`numpy.sort` applied to an object array of Python strings orders them by the
code-point lexicographic `<` of Python. -/

/-- Lexicographic comparison of char lists by code point. -/
def charsLe : List Char → List Char → Bool
  | [], _ => true
  | _ :: _, [] => false
  | a :: as, b :: bs =>
      if a.toNat < b.toNat then true
      else if b.toNat < a.toNat then false
      else charsLe as bs

/-- Python string `<=` (code-point lexicographic). -/
def strLeB (a b : String) : Bool := charsLe a.data b.data

def strLe (a b : String) : Prop := strLeB a b = true

instance : DecidableRel strLe := fun a b => instDecidableEqBool (strLeB a b) true

theorem charsLe_refl : ∀ as : List Char, charsLe as as = true
  | [] => rfl
  | a :: as => by simp [charsLe, Nat.lt_irrefl, charsLe_refl as]

theorem charsLe_total : ∀ as bs : List Char, charsLe as bs = true ∨ charsLe bs as = true
  | [], _ => Or.inl rfl
  | _ :: _, [] => Or.inr rfl
  | a :: as, b :: bs => by
      rcases Nat.lt_trichotomy a.toNat b.toNat with h | h | h
      · left; simp [charsLe, h]
      · rcases charsLe_total as bs with ih | ih
        · left; simp [charsLe, h, Nat.lt_irrefl, ih]
        · right; simp [charsLe, h.symm, Nat.lt_irrefl, ih]
      · right; simp [charsLe, h]

theorem charsLe_trans : ∀ as bs cs : List Char,
    charsLe as bs = true → charsLe bs cs = true → charsLe as cs = true
  | [], _, _, _, _ => rfl
  | _ :: _, [], _, h1, _ => by simp [charsLe] at h1
  | _ :: _, _ :: _, [], _, h2 => by simp [charsLe] at h2
  | a :: as, b :: bs, c :: cs, h1, h2 => by
      simp only [charsLe] at h1 h2 ⊢
      rcases Nat.lt_trichotomy a.toNat b.toNat with hab | hab | hab
      · rcases Nat.lt_trichotomy b.toNat c.toNat with hbc | hbc | hbc
        · rw [if_pos (Nat.lt_trans hab hbc)]
        · rw [if_pos (by omega : a.toNat < c.toNat)]
        · rw [if_neg (by omega), if_pos hbc] at h2
          exact Bool.noConfusion h2
      · rcases Nat.lt_trichotomy b.toNat c.toNat with hbc | hbc | hbc
        · rw [if_pos (by omega : a.toNat < c.toNat)]
        · rw [if_neg (by omega), if_neg (by omega)]
          rw [if_neg (by omega), if_neg (by omega)] at h1
          rw [if_neg (by omega), if_neg (by omega)] at h2
          exact charsLe_trans as bs cs h1 h2
        · rw [if_neg (by omega), if_pos hbc] at h2
          exact Bool.noConfusion h2
      · rw [if_neg (by omega), if_pos hab] at h1
        exact Bool.noConfusion h1

instance : IsTotal String strLe := ⟨fun a b => charsLe_total a.data b.data⟩

instance : IsTrans String strLe := ⟨fun a b c => charsLe_trans a.data b.data c.data⟩

/-! ## pandas `Series.mode` (used at source line 423)

`mode()` drops missing values, collects the values of maximal frequency, and
returns them **sorted ascending** (`np.sort` over the tied values); `.iloc[0]`
then reads the first element and raises `IndexError` when the result is empty. -/

/-- Largest element of a list of naturals (0 on empty). -/
def foldrMax (xs : List Nat) : Nat := xs.foldr max 0

theorem foldrMax_mem : ∀ xs : List Nat, xs ≠ [] → foldrMax xs ∈ xs
  | [], h => absurd rfl h
  | x :: xs, _ => by
      rcases eq_or_ne xs [] with rfl | hne
      · simp [foldrMax]
      · have ih := foldrMax_mem xs hne
        simp only [foldrMax, List.foldr_cons]
        rcases Nat.le_total (xs.foldr max 0) x with h | h
        · rw [Nat.max_eq_left h]
          exact List.mem_cons_self _ _
        · rw [Nat.max_eq_right h]
          exact List.mem_cons_of_mem _ ih

/-- Frequency of the most frequent value of `l`. -/
def maxCount (l : List String) : Nat := foldrMax ((l.dedup).map (fun v => l.count v))

/-- The distinct values of maximal frequency. -/
def modes (l : List String) : List String :=
  (l.dedup).filter (fun v => l.count v == maxCount l)

/-- `Series.mode().iloc[0]` as a partial value: the least tied mode, or `none`
when the series has no non-missing value (pandas would raise there). -/
def seriesModeHead (l : List String) : Option String :=
  (List.insertionSort strLe (modes l)).head?

/-- Modelled from the spec's words, for comparison with `seriesModeHead`: the
most frequent value with ties broken by first occurrence in original order. -/
def firstEncounteredMode (l : List String) : Option String :=
  l.find? (fun v => l.count v == maxCount l)

theorem seriesModeHead_spec (l : List String) (h : l ≠ []) :
    ∃ m, seriesModeHead l = some m ∧ l.count m = maxCount l ∧
      ∀ v ∈ l, l.count v = maxCount l → strLe m v := by
  obtain ⟨a, ha⟩ := List.exists_mem_of_ne_nil l h
  have hdedup : l.dedup ≠ [] := List.ne_nil_of_mem (List.mem_dedup.mpr ha)
  have hcounts : (l.dedup).map (fun v => l.count v) ≠ [] := by
    simpa using hdedup
  obtain ⟨w, hw, hwc⟩ := List.mem_map.mp (foldrMax_mem _ hcounts)
  have hmodes : w ∈ modes l := by
    simp only [modes, List.mem_filter, beq_iff_eq]
    exact ⟨hw, hwc⟩
  have hsortne : List.insertionSort strLe (modes l) ≠ [] := by
    intro hnil
    have := (List.perm_insertionSort strLe (modes l)).symm.mem_iff.mp hmodes
    rw [hnil] at this
    exact List.not_mem_nil w this
  obtain ⟨m, rest, hcons⟩ := List.exists_cons_of_ne_nil hsortne
  have hm_mem : m ∈ modes l := by
    have : m ∈ List.insertionSort strLe (modes l) := by
      rw [hcons]; exact List.mem_cons_self _ _
    exact (List.mem_insertionSort strLe).mp this
  have hm_count : l.count m = maxCount l := by
    have := (List.mem_filter.mp hm_mem).2
    simpa using this
  refine ⟨m, ?_, hm_count, ?_⟩
  · unfold seriesModeHead
    rw [hcons]
    rfl
  · intro v hv hvc
    have hv_modes : v ∈ modes l := by
      simp only [modes, List.mem_filter, beq_iff_eq]
      exact ⟨List.mem_dedup.mpr hv, hvc⟩
    have hv_sort : v ∈ List.insertionSort strLe (modes l) :=
      (List.mem_insertionSort strLe).mpr hv_modes
    rw [hcons] at hv_sort
    rcases List.mem_cons.mp hv_sort with rfl | hv_rest
    · exact (total_of strLe v v).elim id id
    · have hsorted := List.sorted_insertionSort strLe (modes l)
      rw [hcons] at hsorted
      exact List.rel_of_sorted_cons hsorted v hv_rest

/-! ## Country focus pipeline (source lines 340, 423–453) -/

/-- Year order used by `sort_values("Year")` with `na_position="last"`:
a missing Year sorts after every present one. -/
def yearLeB (a b : Row) : Bool :=
  match a.year, b.year with
  | none, none => true
  | none, some _ => false
  | some _, none => true
  | some x, some y => decide (x ≤ y)

def yearLe (a b : Row) : Prop := yearLeB a b = true

instance : DecidableRel yearLe := fun a b => instDecidableEqBool (yearLeB a b) true

/-- `country_df = df[df["Country"] == selected_country].sort_values("Year")`.
The sort key is the Year; the claims settled below do not depend on the order
among rows sharing a Year, so a stable realization of the sort is used. -/
def country_df (df : List Row) (c : String) : List Row :=
  List.insertionSort yearLe (df.filter (fun p => p.country == some c))

/-- Outcome of the regional-comparison sentence (lines 430–453). -/
inductive CompPhrase
  | above
  | below
  | close
  | unavailable
deriving DecidableEq

/-- Line 423: `region = country_df["Region"].mode().iloc[0] if "Region" in
country_df.columns else None`.  `.error` is the `IndexError` raised by
`.iloc[0]` when every Region value of the series is missing. -/
def regionOf (hasRegionCol : Bool) (cdf : List Row) : Except Unit (Option String) :=
  if hasRegionCol then
    match seriesModeHead (cdf.filterMap (fun p => p.region)) with
    | some r => .ok (some r)
    | none => .error ()
  else .ok none

/-- pandas column mean (`Series.mean()`, missing values skipped by callers). -/
def meanL (l : List ℚ) : ℚ := l.sum / l.length

/-- Lines 425–428: mean HappinessScore of the rows of the country's region in
the final year; `None` when the region is undetermined or the subset is empty. -/
def region_mean_final (df : List Row) (endYear : ℚ) (region : Option String) :
    Option ℚ :=
  match region with
  | none => none
  | some r =>
      let sub := df.filter (fun p => p.year == some endYear && p.region == some r)
      if sub.isEmpty then none
      else some (meanL (sub.filterMap (fun p => p.score)))

/-- Lines 430–453.  The guard is `if region_mean_final and
pd.notna(region_mean_final)`: Python truthiness makes both `None` and the
float `0.0` take the unavailable branch. -/
def comp_phrase (lastScore : ℚ) (rmf : Option ℚ) : CompPhrase :=
  match rmf with
  | none => .unavailable
  | some m =>
      if m = 0 then .unavailable
      else if lastScore > m then .above
      else if lastScore < m then .below
      else .close

/-- The whole regional-comparison computation for one country. -/
def regionalComparison (hasRegionCol : Bool) (df : List Row) (c : String)
    (endYear lastScore : ℚ) : Except Unit CompPhrase :=
  (regionOf hasRegionCol (country_df df c)).map
    (fun reg => comp_phrase lastScore (region_mean_final df endYear reg))

/-! ## Theorems for the regional comparison -/

/-- C2 (amended): for every country with at least one non-missing Region value
in its time series, the code selects a Region value of maximal frequency, and
among the values tied for maximal frequency it selects the least in code-point
lexicographic order — the tied modes are sorted ascending before `.iloc[0]` —
not the first one encountered in row order. -/
theorem regionOf_most_frequent_min (df : List Row) (c : String)
    (h : (country_df df c).filterMap (fun p => p.region) ≠ []) :
    ∃ m, regionOf true (country_df df c) = .ok (some m) ∧
      ((country_df df c).filterMap (fun p => p.region)).count m
          = maxCount ((country_df df c).filterMap (fun p => p.region)) ∧
      ∀ v ∈ (country_df df c).filterMap (fun p => p.region),
        ((country_df df c).filterMap (fun p => p.region)).count v
            = maxCount ((country_df df c).filterMap (fun p => p.region)) →
          strLe m v := by
  obtain ⟨m, hm, hc, hmin⟩ := seriesModeHead_spec _ h
  exact ⟨m, by simp [regionOf, hm], hc, hmin⟩

/-- Convenience constructor for loaded rows carrying only the fields the
country-focus computations read. -/
def mkRow (c reg : String) (y q : ℚ) : Row :=
  { country := some c, region := some reg, year := some y, score := some q,
    economy := none, family := none, health := none, freedom := none,
    trust := none, generosity := none }

/-- A country series whose Region values in row order are B, B, A, A. -/
def dfTiedRegions : List Row :=
  [mkRow "X" "B" 2015 5, mkRow "X" "B" 2016 5,
   mkRow "X" "A" 2017 5, mkRow "X" "A" 2018 5]

theorem regionOf_most_frequent_min_witness :
    ∃ m, regionOf true (country_df dfTiedRegions "X") = .ok (some m) ∧
      ((country_df dfTiedRegions "X").filterMap (fun p => p.region)).count m
          = maxCount ((country_df dfTiedRegions "X").filterMap (fun p => p.region)) ∧
      ∀ v ∈ (country_df dfTiedRegions "X").filterMap (fun p => p.region),
        ((country_df dfTiedRegions "X").filterMap (fun p => p.region)).count v
            = maxCount ((country_df dfTiedRegions "X").filterMap (fun p => p.region)) →
          strLe m v :=
  regionOf_most_frequent_min dfTiedRegions "X" (by decide)

/-- C2 counterexample: in the series with regions B, B, A, A both values occur
twice; the first value of maximal frequency encountered in row order is "B",
but the code selects "A", because the tied modes come back sorted ascending
and `.iloc[0]` reads the first. -/
theorem regionOf_not_first_encountered :
    regionOf true (country_df dfTiedRegions "X") = .ok (some "A") ∧
      firstEncounteredMode
          ((country_df dfTiedRegions "X").filterMap (fun p => p.region)) = some "B" ∧
      ("A" : String) ≠ "B" := by
  refine ⟨rfl, by decide, by decide⟩

/-- A country row whose Region is missing. -/
def rowNoRegion : Row :=
  { country := some "X", region := none, year := some 2015, score := some 5,
    economy := none, family := none, health := none, freedom := none,
    trust := none, generosity := none }

/-- C4 (code bug): the design says the regional comparison never raises and
signals "comparison unavailable" when the region is undetermined; but when the
Region column exists and every Region value of the country's series is
missing, `mode()` returns an empty series and `.iloc[0]` raises IndexError,
failing the whole rendering pass. -/
theorem regionalComparison_raises_on_all_missing :
    regionalComparison true [rowNoRegion] "X" 2015 5 = .error () := rfl

/-- C10: whenever the regional mean for the country's final year is exactly 0,
the comparison is reported unavailable — `if region_mean_final and
pd.notna(region_mean_final)` treats the float 0.0 as falsy — instead of
classifying the country's score against that mean. -/
theorem zero_region_mean_unavailable (hasCol : Bool) (df : List Row) (c : String)
    (endYear lastScore : ℚ) (reg : Option String)
    (hreg : regionOf hasCol (country_df df c) = .ok reg)
    (hmean : region_mean_final df endYear reg = some 0) :
    regionalComparison hasCol df c endYear lastScore = .ok .unavailable := by
  unfold regionalComparison
  rw [hreg]
  simp only [Except.map]
  rw [hmean]
  simp [comp_phrase]

/-- A one-country table whose only score in the final year is exactly 0. -/
def dfZeroMean : List Row := [mkRow "X" "R" 2015 0]

theorem zero_region_mean_unavailable_witness :
    regionalComparison true dfZeroMean "X" 2015 0 = .ok .unavailable :=
  zero_region_mean_unavailable true dfZeroMean "X" 2015 0 (some "R") rfl
    (by norm_num [region_mean_final, meanL, dfZeroMean, mkRow, List.filter, List.filterMap])

/-! ## Country trend summary (source lines 375–420) -/

/-- Python `int()`: truncation toward zero. -/
def pyInt (q : ℚ) : ℤ := if 0 ≤ q then q.floor else q.ceil

/-- `int(country_df["Year"].min())` — `Series.min` skips missing values,
and is missing itself (so `int()` raises) when no Year is present. -/
def start_year (cdf : List Row) : Option ℤ :=
  ((cdf.filterMap (fun p => p.year)).min?).map pyInt

/-- `int(country_df["Year"].max())`. -/
def end_year (cdf : List Row) : Option ℤ :=
  ((cdf.filterMap (fun p => p.year)).max?).map pyInt

/-- `country_df.loc[country_df["Year"] == y, ...].iloc[0]`: first row of the
given year, `none` for the IndexError on an empty selection. -/
def firstRowOfYear (cdf : List Row) (y : ℤ) : Option Row :=
  (cdf.filter (fun p => p.year == some (y : ℚ))).head?

/-- Line 377: the HappinessScore of the first row of the start year. -/
def first_score (cdf : List Row) : Option ℚ := do
  let sy ← start_year cdf
  let r ← firstRowOfYear cdf sy
  r.score

/-- Line 378: the HappinessScore of the first row of the end year. -/
def last_score (cdf : List Row) : Option ℚ := do
  let ey ← end_year cdf
  let r ← firstRowOfYear cdf ey
  r.score

/-- Direction of the happiness-score trend. -/
inductive Trend
  | increased
  | decreased
  | stable
deriving DecidableEq

/-- Lines 380–385: strict comparisons; equal endpoint scores take the
"stayed fairly stable" branch (the design's "unchanged"). -/
def trendOf (first last : ℚ) : Trend :=
  if last > first then .increased
  else if last < first then .decreased
  else .stable

/-- Lines 380–388: direction together with `abs(last_score - first_score)`. -/
def trend_summary (cdf : List Row) : Option (Trend × ℚ) := do
  let f ← first_score cdf
  let l ← last_score cdf
  pure (trendOf f l, |l - f|)

/-- C7: with the endpoint scores extracted from the series, the summary is the
strict-comparison classification together with the absolute change: last
greater reports increased, last smaller reports decreased, equality reports
the unchanged outcome. -/
theorem trend_summary_spec (cdf : List Row) (f l : ℚ)
    (hf : first_score cdf = some f) (hl : last_score cdf = some l) :
    trend_summary cdf = some (trendOf f l, |l - f|) ∧
      (trendOf f l = .increased ↔ f < l) ∧
      (trendOf f l = .decreased ↔ l < f) ∧
      (trendOf f l = .stable ↔ f = l) := by
  refine ⟨by rw [trend_summary, hf, hl]; rfl, ?_⟩
  rcases lt_trichotomy f l with h | h | h
  · have ht : trendOf f l = .increased := by
      unfold trendOf
      rw [if_pos h]
    rw [ht]
    exact ⟨⟨fun _ => h, fun _ => rfl⟩,
      ⟨fun hc => Trend.noConfusion hc, fun hlt => absurd hlt (lt_asymm h)⟩,
      ⟨fun hc => Trend.noConfusion hc, fun he => absurd he h.ne⟩⟩
  · subst h
    have ht : trendOf f f = .stable := by
      unfold trendOf
      rw [if_neg (lt_irrefl f), if_neg (lt_irrefl f)]
    rw [ht]
    exact ⟨⟨fun hc => Trend.noConfusion hc, fun hlt => absurd hlt (lt_irrefl f)⟩,
      ⟨fun hc => Trend.noConfusion hc, fun hlt => absurd hlt (lt_irrefl f)⟩,
      ⟨fun _ => rfl, fun _ => rfl⟩⟩
  · have ht : trendOf f l = .decreased := by
      unfold trendOf
      rw [if_neg (lt_asymm h), if_pos h]
    rw [ht]
    exact ⟨⟨fun hc => Trend.noConfusion hc, fun hlt => absurd hlt (lt_asymm h)⟩,
      ⟨fun _ => h, fun _ => rfl⟩,
      ⟨fun hc => Trend.noConfusion hc, fun he => absurd he.symm h.ne⟩⟩

/-- The design document's example series: Finland scores 7.5 in 2015 and 7.4
in 2016. -/
def dfFinlandTrend : List Row :=
  [mkRow "Finland" "Western Europe" 2015 (15 / 2),
   mkRow "Finland" "Western Europe" 2016 (37 / 5)]

theorem trend_summary_spec_witness :
    trend_summary (country_df dfFinlandTrend "Finland")
      = some (.decreased, 1 / 10) := by
  have h := trend_summary_spec (country_df dfFinlandTrend "Finland")
    (15 / 2) (37 / 5) rfl rfl
  rw [h.1]
  have hd : trendOf (15 / 2) (37 / 5) = .decreased := by
    unfold trendOf
    rw [if_neg (by norm_num), if_pos (by norm_num)]
  have habs : |(37 / 5 : ℚ) - 15 / 2| = 1 / 10 := by
    rw [show (37 / 5 : ℚ) - 15 / 2 = -(1 / 10) by norm_num, abs_neg,
      abs_of_pos (show (0 : ℚ) < 1 / 10 by norm_num)]
  rw [hd, habs]

/-! ## Largest factor change (source lines 391–420) -/

/-- The six factor columns in the fixed order of the source's
`factor_cols` list. -/
def factorGetters : List (String × (Row → Option ℚ)) :=
  [("Economy", fun p => p.economy), ("Family", fun p => p.family),
   ("Health", fun p => p.health), ("Freedom", fun p => p.freedom),
   ("Trust", fun p => p.trust), ("Generosity", fun p => p.generosity)]

/-- Lines 392–398: per factor, `last_val - first_val` when both endpoint
values pass `pd.notna`, skipped otherwise; insertion order is the fixed field
order. -/
def factor_changes (fr lr : Row) : List (String × ℚ) :=
  factorGetters.filterMap (fun ng =>
    match ng.2 fr, ng.2 lr with
    | some a, some b => some (ng.1, b - a)
    | _, _ => none)

/-- CPython `max(..., key=abs)`: scan left to right, replacing the current
best only on a strictly greater key, so the first maximal element wins ties. -/
def pyMaxAbs (c : String × ℚ) (rest : List (String × ℚ)) : String × ℚ :=
  rest.foldl (fun acc x => if |x.2| > |acc.2| then x else acc) c

/-- Lines 400–420: the factor with the largest absolute change, or `none` —
the "factors appear relatively stable" sentence — when no factor has two
valid endpoints. -/
def top_factor (fr lr : Row) : Option String :=
  match factor_changes fr lr with
  | [] => none
  | c :: rest => some (pyMaxAbs c rest).1

theorem pyMaxAbs_le : ∀ (rest : List (String × ℚ)) (c : String × ℚ),
    |c.2| ≤ |(pyMaxAbs c rest).2|
  | [], _ => le_refl _
  | x :: rest, c => by
      have hfold : pyMaxAbs c (x :: rest)
          = pyMaxAbs (if |x.2| > |c.2| then x else c) rest := rfl
      rw [hfold]
      by_cases h : |x.2| > |c.2|
      · rw [if_pos h]
        exact le_trans (le_of_lt h) (pyMaxAbs_le rest x)
      · rw [if_neg h]
        exact pyMaxAbs_le rest c

theorem pyMaxAbs_split : ∀ (rest : List (String × ℚ)) (c : String × ℚ),
    ∃ l1 l2, c :: rest = l1 ++ (pyMaxAbs c rest) :: l2 ∧
      (∀ p ∈ l1, |p.2| < |(pyMaxAbs c rest).2|) ∧
      (∀ p ∈ l2, |p.2| ≤ |(pyMaxAbs c rest).2|)
  | [], c => ⟨[], [], rfl, by simp, by simp⟩
  | x :: rest, c => by
      have hfold : pyMaxAbs c (x :: rest)
          = pyMaxAbs (if |x.2| > |c.2| then x else c) rest := rfl
      rw [hfold]
      by_cases h : |x.2| > |c.2|
      · rw [if_pos h]
        obtain ⟨l1, l2, heq, hb1, hb2⟩ := pyMaxAbs_split rest x
        refine ⟨c :: l1, l2, ?_, ?_, hb2⟩
        · rw [List.cons_append, ← heq]
        · intro p hp
          rcases List.mem_cons.mp hp with rfl | hpl
          · exact lt_of_lt_of_le h (pyMaxAbs_le rest x)
          · exact hb1 p hpl
      · rw [if_neg h]
        obtain ⟨l1, l2, heq, hb1, hb2⟩ := pyMaxAbs_split rest c
        rcases l1 with _ | ⟨c1, l1t⟩
        · rw [List.nil_append] at heq
          injection heq with hc hrest
          refine ⟨[], x :: rest, ?_, by simp, ?_⟩
          · rw [List.nil_append, ← hc]
          · intro p hp
            rcases List.mem_cons.mp hp with rfl | hpl
            · rw [← hc]
              exact not_lt.mp h
            · exact hb2 p (hrest ▸ hpl)
        · rw [List.cons_append] at heq
          injection heq with hc hrest
          have hcl : |c.2| < |(pyMaxAbs c rest).2| := by
            have := hb1 c1 (List.mem_cons_self _ _)
            rw [← hc] at this
            exact this
          refine ⟨c :: x :: l1t, l2, ?_, ?_, hb2⟩
          · rw [List.cons_append, List.cons_append, ← hrest]
          · intro p hp
            rcases List.mem_cons.mp hp with rfl | hp2
            · exact hcl
            · rcases List.mem_cons.mp hp2 with rfl | hp3
              · exact lt_of_le_of_lt (not_lt.mp h) hcl
              · exact hb1 p (List.mem_cons_of_mem _ hp3)

/-- C8: the selected factor is one whose change is listed, its absolute change
is maximal, every factor listed before it has strictly smaller absolute change
(so ties go to the first field in the fixed order), a change is listed for
exactly the fields with both endpoint values present, and when no factor
qualifies the summary signals the no-comparable-factor outcome (`none`). -/
theorem top_factor_spec (fr lr : Row) :
    (factor_changes fr lr = [] → top_factor fr lr = none) ∧
    (factor_changes fr lr ≠ [] →
      ∃ n v l1 l2, top_factor fr lr = some n ∧
        factor_changes fr lr = l1 ++ (n, v) :: l2 ∧
        (∀ p ∈ l1, |p.2| < |v|) ∧
        (∀ p ∈ l2, |p.2| ≤ |v|)) ∧
    (∀ n v, (n, v) ∈ factor_changes fr lr ↔
      ∃ g, (n, g) ∈ factorGetters ∧
        ∃ a b, g fr = some a ∧ g lr = some b ∧ v = b - a) := by
  refine ⟨?_, ?_, ?_⟩
  · intro he
    unfold top_factor
    rw [he]
  · intro hne
    obtain ⟨c, rest, hcr⟩ := List.exists_cons_of_ne_nil hne
    obtain ⟨l1, l2, heq, hb1, hb2⟩ := pyMaxAbs_split rest c
    refine ⟨(pyMaxAbs c rest).1, (pyMaxAbs c rest).2, l1, l2, ?_, ?_, hb1, hb2⟩
    · unfold top_factor
      rw [hcr]
    · rw [hcr, heq]
  · intro n v
    unfold factor_changes
    rw [List.mem_filterMap]
    constructor
    · rintro ⟨ng, hmem, hmatch⟩
      rcases hfr : ng.2 fr with _ | a
      · rw [hfr] at hmatch
        exact absurd hmatch (by simp)
      · rcases hlr : ng.2 lr with _ | b
        · rw [hfr, hlr] at hmatch
          exact absurd hmatch (by simp)
        · rw [hfr, hlr] at hmatch
          simp only [Option.some.injEq, Prod.mk.injEq] at hmatch
          refine ⟨ng.2, ?_, a, b, hfr, hlr, hmatch.2.symm⟩
          rw [← hmatch.1]
          exact hmem
    · rintro ⟨g, hmem, a, b, hfr, hlr, rfl⟩
      refine ⟨(n, g), hmem, ?_⟩
      simp only
      rw [hfr, hlr]

/-- Endpoint row with factors Economy 1, Family 1, Freedom 5, Trust 1. -/
def rowEndpointA : Row :=
  { country := some "X", region := none, year := some 2015, score := some 5,
    economy := some 1, family := some 1, health := none, freedom := some 5,
    trust := some 1, generosity := none }

/-- Endpoint row with factors Economy 2, Family 3, Health 4, Freedom 3. -/
def rowEndpointB : Row :=
  { country := some "X", region := none, year := some 2018, score := some 6,
    economy := some 2, family := some 3, health := some 4, freedom := some 3,
    trust := none, generosity := none }

theorem top_factor_spec_witness :
    ∃ n v l1 l2, top_factor rowEndpointA rowEndpointB = some n ∧
      factor_changes rowEndpointA rowEndpointB = l1 ++ (n, v) :: l2 ∧
      (∀ p ∈ l1, |p.2| < |v|) ∧ (∀ p ∈ l2, |p.2| ≤ |v|) :=
  (top_factor_spec rowEndpointA rowEndpointB).2.1 (by decide)

/-! ## Pearson correlation (source lines 284–307)

`factor_df = filtered.dropna(subset=["HappinessScore", factor_col])` keeps the
co-present pairs; `Series.corr` computes `cov / (std_x * std_y)` with the
sample normalization `1/(n-1)` cancelling between numerator and denominator,
so the displayed coefficient `r` is characterized by
`r * sqrt(svarx * svary) = scov`, and is NaN (not a number) exactly when a
standard deviation vanishes. -/

/-- The co-present (HappinessScore, factor) pairs of the subset. -/
def copresent (df : List Row) (g : Row → Option ℚ) : List (ℚ × ℚ) :=
  df.filterMap (fun p => match p.score, g p with
    | some s, some v => some (s, v)
    | _, _ => none)

/-- Sum of products of deviations from the means (the Pearson numerator up to
the cancelling `1/(n-1)`). -/
def scov (ps : List (ℚ × ℚ)) : ℚ :=
  (ps.map (fun p => (p.1 - meanL (ps.map (fun x => x.1)))
      * (p.2 - meanL (ps.map (fun x => x.2))))).sum

/-- Sum of squared deviations of the first coordinate. -/
def svarx (ps : List (ℚ × ℚ)) : ℚ :=
  (ps.map (fun p => (p.1 - meanL (ps.map (fun x => x.1))) ^ 2)).sum

/-- Sum of squared deviations of the second coordinate. -/
def svary (ps : List (ℚ × ℚ)) : ℚ :=
  (ps.map (fun p => (p.2 - meanL (ps.map (fun x => x.2))) ^ 2)).sum

/-- `Series.corr` yields NaN exactly when either column has zero variance over
the co-present records. -/
def corrNaN (ps : List (ℚ × ℚ)) : Bool := svarx ps == 0 || svary ps == 0

theorem listSum_map_eq_range (l : List (ℚ × ℚ)) (f : ℚ × ℚ → ℚ) :
    (l.map f).sum = ∑ i ∈ Finset.range l.length, f (l.getD i (0, 0)) := by
  induction l with
  | nil => simp
  | cons a l ih =>
      rw [List.map_cons, List.sum_cons, List.length_cons, Finset.sum_range_succ']
      simp only [List.getD_cons_succ, List.getD_cons_zero]
      rw [ih]
      ring

theorem scov_sq_le (ps : List (ℚ × ℚ)) : scov ps ^ 2 ≤ svarx ps * svary ps := by
  have hc : scov ps
      = ∑ i ∈ Finset.range ps.length,
          ((ps.getD i (0, 0)).1 - meanL (ps.map (fun x => x.1)))
            * ((ps.getD i (0, 0)).2 - meanL (ps.map (fun x => x.2))) :=
    listSum_map_eq_range ps _
  have hx : svarx ps
      = ∑ i ∈ Finset.range ps.length,
          ((ps.getD i (0, 0)).1 - meanL (ps.map (fun x => x.1))) ^ 2 :=
    listSum_map_eq_range ps _
  have hy : svary ps
      = ∑ i ∈ Finset.range ps.length,
          ((ps.getD i (0, 0)).2 - meanL (ps.map (fun x => x.2))) ^ 2 :=
    listSum_map_eq_range ps _
  rw [hc, hx, hy]
  exact Finset.sum_mul_sq_le_sq_mul_sq _ _ _

theorem svarx_nonneg (ps : List (ℚ × ℚ)) : 0 ≤ svarx ps := by
  apply List.sum_nonneg
  intro x hx
  obtain ⟨p, _, rfl⟩ := List.mem_map.mp hx
  exact sq_nonneg _

theorem svary_nonneg (ps : List (ℚ × ℚ)) : 0 ≤ svary ps := by
  apply List.sum_nonneg
  intro x hx
  obtain ⟨p, _, rfl⟩ := List.mem_map.mp hx
  exact sq_nonneg _

theorem meanL_of_const (l : List ℚ) (c : ℚ) (hne : l ≠ [])
    (hc : ∀ b ∈ l, b = c) : meanL l = c := by
  have hrep := List.eq_replicate_of_mem hc
  have hlen : (l.length : ℚ) ≠ 0 := by
    exact_mod_cast fun h => hne (List.length_eq_zero.mp (by exact_mod_cast h))
  have hsum : l.sum = l.length * c := by
    conv_lhs => rw [hrep]
    rw [List.sum_replicate, nsmul_eq_mul]
  rw [meanL, hsum, mul_comm, mul_div_assoc, div_self hlen, mul_one]

theorem svarx_of_const (ps : List (ℚ × ℚ)) (c : ℚ)
    (hc : ∀ p ∈ ps, p.1 = c) : svarx ps = 0 := by
  rcases eq_or_ne ps [] with rfl | hne
  · rfl
  · have hmean : meanL (ps.map (fun x => x.1)) = c := by
      apply meanL_of_const _ c (by simpa using hne)
      intro b hb
      obtain ⟨p, hp, rfl⟩ := List.mem_map.mp hb
      exact hc p hp
    apply List.sum_eq_zero
    intro x hx
    obtain ⟨p, hp, rfl⟩ := List.mem_map.mp hx
    rw [hmean, hc p hp, sub_self]
    ring

theorem svary_of_const (ps : List (ℚ × ℚ)) (c : ℚ)
    (hc : ∀ p ∈ ps, p.2 = c) : svary ps = 0 := by
  rcases eq_or_ne ps [] with rfl | hne
  · rfl
  · have hmean : meanL (ps.map (fun x => x.2)) = c := by
      apply meanL_of_const _ c (by simpa using hne)
      intro b hb
      obtain ⟨p, hp, rfl⟩ := List.mem_map.mp hb
      exact hc p hp
    apply List.sum_eq_zero
    intro x hx
    obtain ⟨p, hp, rfl⟩ := List.mem_map.mp hx
    rw [hmean, hc p hp, sub_self]
    ring

/-- C3: every correlation the page prints as a number lies in [-1, 1] — any
real `r` satisfying the defining equation of the displayed Pearson coefficient
over more than two co-present records with non-degenerate variances is bounded
— and a constant HappinessScore or factor column over the co-present records
forces the NaN flag, so no number is produced there. -/
theorem corr_spec (df : List Row) (g : Row → Option ℚ) :
    (∀ r : ℝ, 2 < (copresent df g).length → corrNaN (copresent df g) = false →
      r * Real.sqrt ((svarx (copresent df g) : ℝ) * (svary (copresent df g) : ℝ))
          = (scov (copresent df g) : ℝ) →
      -1 ≤ r ∧ r ≤ 1) ∧
    (∀ c : ℚ, (∀ p ∈ copresent df g, p.1 = c) → corrNaN (copresent df g) = true) ∧
    (∀ c : ℚ, (∀ p ∈ copresent df g, p.2 = c) → corrNaN (copresent df g) = true) := by
  refine ⟨?_, ?_, ?_⟩
  · intro r _ hnan hr
    have hxy : svarx (copresent df g) ≠ 0 ∧ svary (copresent df g) ≠ 0 := by
      simpa [corrNaN] using hnan
    have hxpos : 0 < svarx (copresent df g) :=
      lt_of_le_of_ne (svarx_nonneg _) (Ne.symm hxy.1)
    have hypos : 0 < svary (copresent df g) :=
      lt_of_le_of_ne (svary_nonneg _) (Ne.symm hxy.2)
    have hprod : (0 : ℝ)
        < (svarx (copresent df g) : ℝ) * (svary (copresent df g) : ℝ) := by
      exact_mod_cast mul_pos hxpos hypos
    have hsq : r ^ 2 * ((svarx (copresent df g) : ℝ) * (svary (copresent df g) : ℝ))
        = (scov (copresent df g) : ℝ) ^ 2 := by
      have h2 := congrArg (fun t => t ^ 2) hr
      simpa [mul_pow, Real.sq_sqrt hprod.le] using h2
    have hle : ((scov (copresent df g) : ℝ)) ^ 2
        ≤ (svarx (copresent df g) : ℝ) * (svary (copresent df g) : ℝ) := by
      exact_mod_cast scov_sq_le (copresent df g)
    have hr2 : r ^ 2 ≤ 1 := by
      have h1 : r ^ 2 * ((svarx (copresent df g) : ℝ) * (svary (copresent df g) : ℝ))
          ≤ 1 * ((svarx (copresent df g) : ℝ) * (svary (copresent df g) : ℝ)) := by
        rw [hsq, one_mul]
        exact hle
      exact le_of_mul_le_mul_right h1 hprod
    exact abs_le.mp ((sq_le_one_iff_abs_le_one r).mp hr2)
  · intro c hc
    have h0 := svarx_of_const _ c hc
    simp [corrNaN, h0]
  · intro c hc
    have h0 := svary_of_const _ c hc
    simp [corrNaN, h0]

/-- Row carrying just a HappinessScore and an Economy value. -/
def mkRowSF (s v : ℚ) : Row :=
  { country := some "X", region := none, year := some 2015, score := some s,
    economy := some v, family := none, health := none, freedom := none,
    trust := none, generosity := none }

/-- Three co-present records with score and factor (0,0), (1,1), (2,2):
a perfectly correlated selection, r = 1. -/
def dfCorrLinear : List Row := [mkRowSF 0 0, mkRowSF 1 1, mkRowSF 2 2]

/-- Three co-present records whose factor column is constantly 7. -/
def dfCorrConst : List Row := [mkRowSF 1 7, mkRowSF 2 7, mkRowSF 3 7]

theorem corr_spec_witness :
    ((-1 : ℝ) ≤ 1 ∧ (1 : ℝ) ≤ 1) ∧
      corrNaN (copresent dfCorrConst (fun p => p.economy)) = true := by
  constructor
  · have hps : copresent dfCorrLinear (fun p => p.economy)
        = [(0, 0), (1, 1), (2, 2)] := rfl
    have hx : svarx [((0 : ℚ), (0 : ℚ)), (1, 1), (2, 2)] = 2 := by
      norm_num [svarx, meanL]
    have hy : svary [((0 : ℚ), (0 : ℚ)), (1, 1), (2, 2)] = 2 := by
      norm_num [svary, meanL]
    have hs : scov [((0 : ℚ), (0 : ℚ)), (1, 1), (2, 2)] = 2 := by
      norm_num [scov, meanL]
    have hnan : corrNaN (copresent dfCorrLinear (fun p => p.economy)) = false := by
      unfold corrNaN
      rw [hps, hx, hy]
      decide
    have hr : (1 : ℝ) * Real.sqrt
        ((svarx (copresent dfCorrLinear (fun p => p.economy)) : ℝ)
          * (svary (copresent dfCorrLinear (fun p => p.economy)) : ℝ))
        = (scov (copresent dfCorrLinear (fun p => p.economy)) : ℝ) := by
      rw [hps, hx, hy, hs]
      push_cast
      rw [show (2 : ℝ) * 2 = 2 ^ 2 by norm_num,
        Real.sqrt_sq (by norm_num : (0 : ℝ) ≤ 2), one_mul]
    exact (corr_spec dfCorrLinear (fun p => p.economy)).1 1 (by decide) hnan hr
  · exact (corr_spec dfCorrConst (fun p => p.economy)).2.2 7 (by decide)
